import Mathlib

/-!
Verification of the segmented-retrieval-and-stitching core of the
star-exploration ephemeris generators.

The development shallowly embeds the Python sources
`NASA_Data/scripts/generate_ephemeris_parker_solar_probe.py` and
`NASA_Data/scripts/generate_ephemeris_voyager2.py` (whose
`horizons_vectors_chunked`, `parse_vectors` and `parse_earliest_from_error`
are line-for-line identical), together with the single-shot variant in
`Ephemeris/scripts/generate_ephemeris.py`.

Modelling choices:
* Timestamps (Julian-day epochs and the `datetime` cursor) are rationals `ℚ`,
  measured in days.  The Python code keeps the cursor in `datetime` seconds
  and the epochs in Julian-day floats; dividing the cursor timeline by 86400
  is an exact isomorphism on `ℚ`, so both live on one axis here.  The cursor
  only ever holds whole seconds (`parse_utcish` parses whole seconds,
  `parse_earliest_from_error` zeroes microseconds, and the chunk span is a
  whole number of seconds), so `fmt_utcish`'s truncation to whole seconds is
  the identity on every reachable state and is not modelled separately.
* The dedup tolerance `1e-10` is the exact rational `1/10^10`.
* The external call `horizons_vectors_once` (HTTP + `extract_block` +
  `parse_vectors`) is abstracted as a fetch oracle
  `ℚ → ℚ → FetchResult`: given the sub-query bounds it returns either a
  parsed fragment, a `StartTooEarly` epoch, or a fatal error.
* The `while` loop of `horizons_vectors_chunked` is modelled with explicit
  fuel; `none` means the fuel ran out (the Python loop is still running),
  `some .err` models an uncaught `RuntimeError`, and `some (.ok t pv)` a
  normal return.  `time.sleep` and the `signature` plumbing are side effects
  that touch no control flow or returned data and are omitted.
-/

namespace StarEphem

/-- Python's `abs` on our rational timestamps. -/
def pyabs (x : ℚ) : ℚ := if x < 0 then -x else x

/-- The fixed epoch-equality tolerance `1e-10` used by the stitcher and the
time-grid check. -/
def tol : ℚ := 1 / 10000000000

/-- Result of one sub-query (`horizons_vectors_once`): a parsed fragment
`(t, pv)`, a `StartTooEarly` exception carrying the shifted start, or any
other fatal upstream error. -/
inductive FetchResult where
  | success (t : List ℚ) (pv : List ℚ)
  | tooEarly (e : ℚ)
  | fatal
deriving DecidableEq

/-- Outcome of `horizons_vectors_chunked`: a returned series or an uncaught
`RuntimeError`. -/
inductive ChunkResult where
  | ok (t : List ℚ) (pv : List ℚ)
  | err
deriving DecidableEq

/-- `idx0` computed by the stitching loop
`while idx0 < len(t) and t[idx0] <= last + 1e-10: idx0 += 1`. -/
def overlapCount (last : ℚ) : List ℚ → ℕ
  | [] => 0
  | x :: xs => if x ≤ last + tol then overlapCount last xs + 1 else 0

/-- The per-fragment stitching step of `horizons_vectors_chunked`:
adopt the fragment when nothing is accepted yet (`if not all_t`), otherwise
drop the boundary overlap and append the remainder
(`all_t.extend(t[idx0:]); all_pv.extend(pv[idx0 * 6:])`, guarded by
`idx0 < len(t)`). -/
def stitch (accT accPv t pv : List ℚ) : List ℚ × List ℚ :=
  match accT.getLast? with
  | none => (t, pv)
  | some last =>
    let idx0 := overlapCount last t
    if idx0 < t.length then (accT ++ t.drop idx0, accPv ++ pv.drop (idx0 * 6))
    else (accT, accPv)

/-- The post-loop check
`if len(all_t) < 2 or len(all_pv) != len(all_t) * 6: raise RuntimeError`. -/
def finalCheck (t pv : List ℚ) : ChunkResult :=
  if t.length < 2 ∨ pv.length ≠ 6 * t.length then .err else .ok t pv

/-- The sub-query stop bound of one iteration:
`chunk_stop = start_dt + max_span; if chunk_stop > stop_dt: chunk_stop = stop_dt`. -/
def chunkStopOf (stop span cursor : ℚ) : ℚ :=
  if stop < cursor + span then stop else cursor + span

/-- The `while start_dt < stop_dt` loop of `horizons_vectors_chunked`,
with explicit fuel.  Each iteration issues the sub-query over
`[cursor, chunkStopOf stop span cursor]`, and on
* `StartTooEarly e`: raises when `e >= stop_dt`, otherwise retries with
  `start_dt = e`;
* any other error: raises;
* success: stitches the fragment, exits early when `chunk_stop == start_dt`,
  otherwise advances `start_dt = chunk_stop`. -/
def chunkedLoop (fetch : ℚ → ℚ → FetchResult) (stop span : ℚ) :
    ℕ → ℚ → List ℚ → List ℚ → Option ChunkResult
  | 0, _, _, _ => none
  | fuel + 1, cursor, accT, accPv =>
    if cursor < stop then
      let chunkStop := chunkStopOf stop span cursor
      match fetch cursor chunkStop with
      | .tooEarly e =>
          if stop ≤ e then some .err
          else chunkedLoop fetch stop span fuel e accT accPv
      | .fatal => some .err
      | .success t pv =>
          let acc := stitch accT accPv t pv
          if chunkStop = cursor then some (finalCheck acc.1 acc.2)
          else chunkedLoop fetch stop span fuel chunkStop acc.1 acc.2
    else some (finalCheck accT accPv)

/-- Units accepted by `step_seconds` (`"d"` days, `"m"` minutes). -/
inductive StepUnit where
  | d
  | m
deriving DecidableEq

/-- `step_seconds`: the step string `"n d"` or `"n m"` in whole seconds. -/
def step_seconds (n : ℕ) (u : StepUnit) : ℕ :=
  match u with
  | .d => n * 86400
  | .m => n * 60

/-- The step converted to days, the unit of the epoch axis. -/
def stepDays (n : ℕ) (u : StepUnit) : ℚ := (step_seconds n u : ℚ) / 86400

/-- `MAX_SAMPLES_PER_CALL` from the scripts. -/
def MAX_SAMPLES_PER_CALL : ℕ := 2000

/-- `horizons_vectors_chunked(command, start_time, stop_time, step_size)`,
abstracted over the fetch oracle and the per-call sample cap.  The step
string is the already-parsed pair `(n, u)`; `start`/`stop` are the parsed
`start_dt`/`stop_dt`. -/
def horizons_vectors_chunked (fetch : ℚ → ℚ → FetchResult)
    (start stop : ℚ) (n : ℕ) (u : StepUnit) (maxSamples : ℕ) (fuel : ℕ) :
    Option ChunkResult :=
  let step := stepDays n u
  let span := step * ((maxSamples : ℚ) - 1)
  chunkedLoop fetch stop span fuel start [] []

/-- The list of sub-query bounds `(start, chunk_stop)` issued by
`chunkedLoop`, in order.  The control flow of the loop never inspects the
accumulated series, so the trace needs no accumulator. -/
def chunkedQueries (fetch : ℚ → ℚ → FetchResult) (stop span : ℚ) :
    ℕ → ℚ → List (ℚ × ℚ)
  | 0, _ => []
  | fuel + 1, cursor =>
    if cursor < stop then
      let chunkStop := chunkStopOf stop span cursor
      (cursor, chunkStop) ::
        (match fetch cursor chunkStop with
         | .tooEarly e =>
             if stop ≤ e then [] else chunkedQueries fetch stop span fuel e
         | .fatal => []
         | .success _ _ =>
             if chunkStop = cursor then []
             else chunkedQueries fetch stop span fuel chunkStop)
    else []

/-- The inclusive arithmetic grid `a, a+s, …, a+(m-1)s`. -/
def grid (a s : ℚ) (m : ℕ) : List ℚ :=
  (List.range m).map (fun i : ℕ => a + (i : ℚ) * s)

/-- Number of points of the inclusive grid over `[s, e]` at step `step`. -/
def gridPoints (step s e : ℚ) : ℕ := (⌊(e - s) / step⌋).toNat + 1

/-- A fetch oracle that answers every sub-query `[s, e]` with exactly the
inclusive grid `s, s+step, …, e`; the vector payload is arbitrary
(parameter `pvf`). -/
def gridOracle (step : ℚ) (pvf : ℚ → ℚ → List ℚ) : ℚ → ℚ → FetchResult :=
  fun s e => .success (grid s step (gridPoints step s e)) (pvf s e)

/-! ### Step equations of the loop -/

theorem chunkedLoop_fuel_zero (fetch : ℚ → ℚ → FetchResult) (stop span cursor : ℚ)
    (accT accPv : List ℚ) :
    chunkedLoop fetch stop span 0 cursor accT accPv = none := rfl

theorem chunkedLoop_exit (fetch : ℚ → ℚ → FetchResult) (stop span cursor : ℚ)
    (fuel : ℕ) (accT accPv : List ℚ) (h : ¬ cursor < stop) :
    chunkedLoop fetch stop span (fuel + 1) cursor accT accPv
      = some (finalCheck accT accPv) := by
  simp [chunkedLoop, h]

theorem chunkedLoop_tooEarly_retry (fetch : ℚ → ℚ → FetchResult) (stop span cursor : ℚ)
    (fuel : ℕ) (accT accPv : List ℚ) (e : ℚ) (h : cursor < stop)
    (hf : fetch cursor (chunkStopOf stop span cursor) = .tooEarly e) (he : e < stop) :
    chunkedLoop fetch stop span (fuel + 1) cursor accT accPv
      = chunkedLoop fetch stop span fuel e accT accPv := by
  simp [chunkedLoop, h, hf, not_le.mpr he]

theorem chunkedLoop_tooEarly_fatal (fetch : ℚ → ℚ → FetchResult) (stop span cursor : ℚ)
    (fuel : ℕ) (accT accPv : List ℚ) (e : ℚ) (h : cursor < stop)
    (hf : fetch cursor (chunkStopOf stop span cursor) = .tooEarly e) (he : stop ≤ e) :
    chunkedLoop fetch stop span (fuel + 1) cursor accT accPv = some .err := by
  simp [chunkedLoop, h, hf, he]

theorem chunkedLoop_fatal (fetch : ℚ → ℚ → FetchResult) (stop span cursor : ℚ)
    (fuel : ℕ) (accT accPv : List ℚ) (h : cursor < stop)
    (hf : fetch cursor (chunkStopOf stop span cursor) = .fatal) :
    chunkedLoop fetch stop span (fuel + 1) cursor accT accPv = some .err := by
  simp [chunkedLoop, h, hf]

theorem chunkedLoop_success_advance (fetch : ℚ → ℚ → FetchResult) (stop span cursor : ℚ)
    (fuel : ℕ) (accT accPv t pv : List ℚ) (h : cursor < stop)
    (hf : fetch cursor (chunkStopOf stop span cursor) = .success t pv)
    (hne : chunkStopOf stop span cursor ≠ cursor) :
    chunkedLoop fetch stop span (fuel + 1) cursor accT accPv
      = chunkedLoop fetch stop span fuel (chunkStopOf stop span cursor)
          (stitch accT accPv t pv).1 (stitch accT accPv t pv).2 := by
  simp [chunkedLoop, h, hf, hne]

theorem chunkedLoop_success_break (fetch : ℚ → ℚ → FetchResult) (stop span cursor : ℚ)
    (fuel : ℕ) (accT accPv t pv : List ℚ) (h : cursor < stop)
    (hf : fetch cursor (chunkStopOf stop span cursor) = .success t pv)
    (heq : chunkStopOf stop span cursor = cursor) :
    chunkedLoop fetch stop span (fuel + 1) cursor accT accPv
      = some (finalCheck (stitch accT accPv t pv).1 (stitch accT accPv t pv).2) := by
  rw [heq] at hf
  simp [chunkedLoop, h, hf, heq]

/-! ### The arithmetic grid -/

theorem grid_zero (a s : ℚ) : grid a s 0 = [] := rfl

theorem grid_length (a s : ℚ) (m : ℕ) : (grid a s m).length = m := by
  simp [grid]

theorem grid_succ_cons (a s : ℚ) (m : ℕ) :
    grid a s (m + 1) = a :: grid (a + s) s m := by
  unfold grid
  rw [List.range_succ_eq_map]
  simp only [List.map_cons, List.map_map, Nat.cast_zero, zero_mul, add_zero]
  refine congrArg _ (List.map_congr_left fun i _ => ?_)
  simp only [Function.comp_apply]
  push_cast
  ring

theorem grid_head (a s : ℚ) (m : ℕ) : (grid a s (m + 1)).head? = some a := by
  rw [grid_succ_cons]
  rfl

theorem grid_getLast (a s : ℚ) (m : ℕ) :
    (grid a s (m + 1)).getLast? = some (a + m * s) := by
  induction m generalizing a with
  | zero => simp [grid_succ_cons, grid_zero]
  | succ m ih =>
    rw [grid_succ_cons, grid_succ_cons, List.getLast?_cons_cons, ← grid_succ_cons, ih]
    push_cast
    ring_nf

theorem grid_append (a s : ℚ) (m k : ℕ) :
    grid a s m ++ grid (a + m * s) s k = grid a s (m + k) := by
  induction m generalizing a with
  | zero => simp [grid_zero]
  | succ m ih =>
    rw [grid_succ_cons]
    have h1 : a + (↑(m + 1) : ℚ) * s = (a + s) + m * s := by push_cast; ring
    rw [h1, List.cons_append, ih, ← grid_succ_cons]
    congr 1
    omega

/-! ### C4: an `EarliestAvailableSignal` at or after the window stop is fatal -/

/-- C4: whenever a sub-query answers `StartTooEarly E` with `E ≥ stop`, the
chunked fetcher raises (`.err`) and returns no series — whatever fragments
`accT`/`accPv` had already been accumulated by earlier iterations. -/
theorem chunked_tooEarly_unsatisfiable_fatal :
    ∀ (fetch : ℚ → ℚ → FetchResult) (stop span : ℚ) (fuel : ℕ) (cursor : ℚ)
      (accT accPv : List ℚ) (E : ℚ), cursor < stop →
      fetch cursor (chunkStopOf stop span cursor) = .tooEarly E → stop ≤ E →
      chunkedLoop fetch stop span (fuel + 1) cursor accT accPv = some .err :=
  fun fetch stop span fuel cursor accT accPv E hcur hf hE =>
    chunkedLoop_tooEarly_fatal fetch stop span cursor fuel accT accPv E hcur hf hE

/-- Witness for C4 at a concrete state: mid-run (two fragments already
accepted), the answer `StartTooEarly 5` against `stop = 1` raises. -/
theorem chunked_tooEarly_unsatisfiable_fatal_w :
    chunkedLoop (fun _ _ => .tooEarly 5) 1 1 3 0 [100, 101] (List.replicate 12 0)
      = some .err :=
  chunked_tooEarly_unsatisfiable_fatal (fun _ _ => .tooEarly 5) 1 1 2 0
    [100, 101] (List.replicate 12 0) 5 (by norm_num) rfl (by norm_num)

/-! ### C2: an `EarliestAvailableSignal` inside the window shifts the cursor -/

/-- The oracle of C2's concrete scenario: sub-queries starting before `105`
are answered `StartTooEarly 105`; once the cursor has shifted to `105` the
oracle serves the inclusive 5-day grid over the queried bounds. -/
def c2Fetch : ℚ → ℚ → FetchResult :=
  fun s e =>
    if s < 105 then .tooEarly 105
    else .success (grid s 5 (gridPoints 5 s e)) (List.replicate (6 * gridPoints 5 s e) 0)

/-- C2: on `StartTooEarly E` with `E < stop` the loop re-issues with cursor
exactly `E` (first conjunct); concretely, for window `[100, 200)` at step
`"5 d"` with `StartTooEarly 105`, the issued sub-queries are `[100, 200]`
then `[105, 200]`, and the returned series starts at epoch `105 ≥ E` and
still reaches `stop = 200` (remaining conjuncts). -/
theorem chunked_tooEarly_shift_retry :
    (∀ (fetch : ℚ → ℚ → FetchResult) (stop span : ℚ) (fuel : ℕ) (cursor : ℚ)
        (accT accPv : List ℚ) (E : ℚ), cursor < stop →
        fetch cursor (chunkStopOf stop span cursor) = .tooEarly E → E < stop →
        chunkedLoop fetch stop span (fuel + 1) cursor accT accPv
          = chunkedLoop fetch stop span fuel E accT accPv)
    ∧ chunkedQueries c2Fetch 200 100 4 100 = [(100, 200), (105, 200)]
    ∧ (∃ T pv, horizons_vectors_chunked c2Fetch 100 200 5 .d 21 5 = some (.ok T pv)
        ∧ T.head? = some 105 ∧ T.getLast? = some 200) := by
  refine ⟨fun fetch stop span fuel cursor accT accPv E hcur hf hE =>
    chunkedLoop_tooEarly_retry fetch stop span cursor fuel accT accPv E hcur hf hE, ?_, ?_⟩
  · norm_num [chunkedQueries, chunkStopOf, c2Fetch]
  · have hpts : gridPoints 5 105 200 = 20 := by
      norm_num [gridPoints]
      decide
    refine ⟨grid 105 5 20, List.replicate 120 0, ?_, ?_, ?_⟩
    · norm_num [horizons_vectors_chunked, chunkedLoop, chunkStopOf, c2Fetch, stepDays,
        step_seconds, stitch, finalCheck, hpts, grid_length]
    · rw [show (20 : ℕ) = 19 + 1 from rfl, grid_head]
    · rw [show (20 : ℕ) = 19 + 1 from rfl, grid_getLast]
      norm_num

/-- Witness for C2's general conjunct at a concrete state. -/
theorem chunked_tooEarly_shift_retry_w :
    chunkedLoop (fun _ _ => .tooEarly 105) 200 100 3 100 [] []
      = chunkedLoop (fun _ _ => .tooEarly 105) 200 100 2 105 [] [] :=
  chunked_tooEarly_shift_retry.1 (fun _ _ => .tooEarly 105) 200 100 2 100 [] [] 105
    (by norm_num) rfl (by norm_num)

end StarEphem

namespace StarEphem

/-! ### C3: boundary-overlap dedup in the stitcher -/

theorem overlap_drop_eq_filter (last : ℚ) (t : List ℚ) (h : t.Chain' (· ≤ ·)) :
    t.drop (overlapCount last t) = t.filter (fun x => decide (last + tol < x)) := by
  induction t with
  | nil => rfl
  | cons x xs ih =>
    rw [overlapCount]
    by_cases hx : x ≤ last + tol
    · rw [if_pos hx, List.drop_succ_cons, ih h.tail, List.filter_cons]
      simp [not_lt.mpr hx]
    · rw [if_neg hx, List.drop_zero]
      push_neg at hx
      have hall : ∀ y ∈ xs, x ≤ y := by
        rw [List.chain'_iff_pairwise] at h
        exact (List.pairwise_cons.mp h).1
      have hfilter : List.filter (fun z => decide (last + tol < z)) xs = xs :=
        List.filter_eq_self.mpr fun y hy => by
          simpa using lt_of_lt_of_le hx (hall y hy)
      rw [List.filter_cons]
      simp [hx, hfilter]

/-- The oracle of C3's concrete scenario: the first sub-query is answered
with epochs `[100, 101]`, every later one with the boundary-overlapping
`[101, 102]`; the vector payloads are arbitrary. -/
def c3Fetch (pv1 pv2 : List ℚ) : ℚ → ℚ → FetchResult :=
  fun s _ => if s ≤ 100 then .success [100, 101] pv1 else .success [101, 102] pv2

/-- C3: a non-first fragment contributes only the samples whose epoch
exceeds the last accepted epoch by more than the tolerance (first conjunct,
for fragments that are sorted as chunk responses are); concretely, fragments
`[100, 101]` and `[101, 102]` stitch to `[100, 101, 102]` — not
`[100, 101, 101, 102]` — and the duplicated epoch's 6-component vector block
is dropped with it (second conjunct). -/
theorem stitch_drops_boundary_overlap :
    (∀ (accT accPv t pv : List ℚ) (last : ℚ), accT.getLast? = some last →
        t.Chain' (· ≤ ·) →
        (stitch accT accPv t pv).1 = accT ++ t.filter (fun x => decide (last + tol < x)))
    ∧ (∀ pv1 pv2 : List ℚ, pv1.length = 12 → pv2.length = 12 →
        horizons_vectors_chunked (c3Fetch pv1 pv2) 100 102 1 .d 2 5
          = some (.ok [100, 101, 102] (pv1 ++ pv2.drop 6))) := by
  constructor
  · intro accT accPv t pv last hlast hs
    unfold stitch
    rw [hlast]
    by_cases hlt : overlapCount last t < t.length
    · simp only [if_pos hlt]
      rw [overlap_drop_eq_filter last t hs]
    · simp only [if_neg hlt]
      have hdrop : t.drop (overlapCount last t) = [] :=
        List.drop_eq_nil_of_le (by omega)
      rw [← overlap_drop_eq_filter last t hs, hdrop, List.append_nil]
  · intro pv1 pv2 h1 h2
    norm_num [horizons_vectors_chunked, chunkedLoop, chunkStopOf, c3Fetch, stepDays,
      step_seconds, stitch, overlapCount, finalCheck, tol, h1, h2]

/-- Witness for C3: both conjuncts at concrete inputs. -/
theorem stitch_drops_boundary_overlap_w :
    (stitch [100, 101] (List.replicate 12 0) [101, 102] (List.replicate 12 1)).1
        = [100, 101] ++ [101, 102].filter (fun x => decide ((101 : ℚ) + tol < x))
    ∧ horizons_vectors_chunked (c3Fetch (List.replicate 12 0) (List.replicate 12 1))
        100 102 1 .d 2 5
        = some (.ok [100, 101, 102]
            (List.replicate 12 0 ++ (List.replicate 12 1).drop 6)) :=
  ⟨stitch_drops_boundary_overlap.1 [100, 101] (List.replicate 12 0) [101, 102]
      (List.replicate 12 1) 101 (by simp) (by norm_num),
   stitch_drops_boundary_overlap.2 (List.replicate 12 0) (List.replicate 12 1)
      (by simp) (by simp)⟩

end StarEphem

namespace StarEphem

/-! ### C6: every returned series is well-formed -/

theorem finalCheck_eq_ok (a b t pv : List ℚ) (h : finalCheck a b = .ok t pv) :
    a = t ∧ b = pv ∧ 2 ≤ a.length ∧ b.length = 6 * a.length := by
  unfold finalCheck at h
  by_cases hc : a.length < 2 ∨ b.length ≠ 6 * a.length
  · rw [if_pos hc] at h
    exact absurd h (by simp)
  · rw [if_neg hc] at h
    push_neg at hc
    injection h with h1 h2
    exact ⟨h1, h2, by omega, hc.2⟩

theorem chunkedLoop_ok_wellformed (fetch : ℚ → ℚ → FetchResult) (stop span : ℚ) :
    ∀ (fuel : ℕ) (cursor : ℚ) (accT accPv t pv : List ℚ),
      chunkedLoop fetch stop span fuel cursor accT accPv = some (.ok t pv) →
      2 ≤ t.length ∧ pv.length = 6 * t.length := by
  intro fuel
  induction fuel with
  | zero => intro cursor accT accPv t pv h; exact absurd h (by simp [chunkedLoop])
  | succ fuel ih =>
    intro cursor accT accPv t pv h
    by_cases hcur : cursor < stop
    · rcases hfetch : fetch cursor (chunkStopOf stop span cursor) with ⟨t', pv'⟩ | e | _
      · by_cases hstopc : chunkStopOf stop span cursor = cursor
        · rw [chunkedLoop_success_break fetch stop span cursor fuel accT accPv t' pv'
            hcur hfetch hstopc] at h
          injection h with h
          obtain ⟨ha, hb, h2, h6⟩ := finalCheck_eq_ok _ _ _ _ h
          subst ha
          subst hb
          exact ⟨h2, h6⟩
        · rw [chunkedLoop_success_advance fetch stop span cursor fuel accT accPv t' pv'
            hcur hfetch hstopc] at h
          exact ih _ _ _ _ _ h
      · by_cases he : stop ≤ e
        · rw [chunkedLoop_tooEarly_fatal fetch stop span cursor fuel accT accPv e
            hcur hfetch he] at h
          exact absurd h (by simp)
        · rw [chunkedLoop_tooEarly_retry fetch stop span cursor fuel accT accPv e
            hcur hfetch (not_le.mp he)] at h
          exact ih _ _ _ _ _ h
      · rw [chunkedLoop_fatal fetch stop span cursor fuel accT accPv hcur hfetch] at h
        exact absurd h (by simp)
    · rw [chunkedLoop_exit fetch stop span cursor fuel accT accPv hcur] at h
      injection h with h
      obtain ⟨ha, hb, h2, h6⟩ := finalCheck_eq_ok _ _ _ _ h
      subst ha
      subst hb
      exact ⟨h2, h6⟩

/-- C6: any series returned by `horizons_vectors_chunked` — under any fetch
oracle whatsoever — has at least 2 samples and exactly 6 vector components
per epoch (first conjunct); the stitching step preserves the 6-per-epoch
correspondence, dropping vectors in blocks of 6 aligned with the dropped
epochs (second conjunct); and on loop exit the fetcher raises rather than
returning when either condition fails (third conjunct). -/
theorem chunked_returned_series_wellformed :
    (∀ (fetch : ℚ → ℚ → FetchResult) (start stop : ℚ) (n : ℕ) (u : StepUnit)
        (ms fuel : ℕ) (t pv : List ℚ),
        horizons_vectors_chunked fetch start stop n u ms fuel = some (.ok t pv) →
        2 ≤ t.length ∧ pv.length = 6 * t.length)
    ∧ (∀ accT accPv t pv : List ℚ, pv.length = 6 * t.length →
        accPv.length = 6 * accT.length →
        (stitch accT accPv t pv).2.length = 6 * (stitch accT accPv t pv).1.length)
    ∧ (∀ accT accPv : List ℚ, accT.length < 2 ∨ accPv.length ≠ 6 * accT.length →
        finalCheck accT accPv = .err) := by
  refine ⟨?_, ?_, ?_⟩
  · intro fetch start stop n u ms fuel t pv h
    exact chunkedLoop_ok_wellformed fetch stop _ fuel start [] [] t pv h
  · intro accT accPv t pv hpv hacc
    unfold stitch
    rcases hlast : accT.getLast? with _ | last
    · exact hpv
    · simp only
      by_cases hlt : overlapCount last t < t.length
      · rw [if_pos hlt]
        have hle : overlapCount last t * 6 ≤ pv.length := by omega
        simp only [List.length_append, List.length_drop]
        omega
      · rw [if_neg hlt]
        exact hacc
  · intro accT accPv h
    simp [finalCheck, h]

/-- Witness for C6 at a concrete fetch oracle and concrete lists. -/
theorem chunked_returned_series_wellformed_w :
    (2 ≤ ([100, 101] : List ℚ).length
      ∧ (List.replicate 12 (0 : ℚ)).length = 6 * ([100, 101] : List ℚ).length)
    ∧ (stitch [100, 101] (List.replicate 12 0) [101, 102] (List.replicate 12 1)).2.length
        = 6 * (stitch [100, 101] (List.replicate 12 0) [101, 102] (List.replicate 12 1)).1.length
    ∧ finalCheck [100] (List.replicate 6 0) = .err :=
  ⟨chunked_returned_series_wellformed.1
      (fun _ _ => .success [100, 101] (List.replicate 12 0)) 100 101 1 .d 2000 5
      [100, 101] (List.replicate 12 0)
      (by norm_num [horizons_vectors_chunked, chunkedLoop, chunkStopOf, stepDays,
        step_seconds, stitch, finalCheck]),
   chunked_returned_series_wellformed.2.1 [100, 101] (List.replicate 12 0)
      [101, 102] (List.replicate 12 1) (by simp) (by simp),
   chunked_returned_series_wellformed.2.2 [100] (List.replicate 6 0) (by simp)⟩

end StarEphem

namespace StarEphem

/-! ### C5: monotonicity of returned series -/

/-- A parser-producible fragment with out-of-order epochs: `parse_vectors`
never sorts or deduplicates a block, so a block listing `5` before `3`
yields exactly this fragment. -/
def badFetch : ℚ → ℚ → FetchResult := fun _ _ => .success [5, 3] (List.replicate 12 0)

/-- Counterexample to C5 as stated: under the fetch oracle `badFetch` the
chunked fetcher returns the series `[5, 3]`, whose epochs are not strictly
increasing — the stitcher never inspects the internal order of the first
accepted fragment. -/
theorem chunked_unsorted_fragment_not_increasing :
    horizons_vectors_chunked badFetch 0 1 1 .d 2000 5
        = some (.ok [5, 3] (List.replicate 12 0))
    ∧ ¬ ([5, 3] : List ℚ).Pairwise (· < ·) := by
  constructor
  · norm_num [horizons_vectors_chunked, chunkedLoop, chunkStopOf, badFetch, stepDays,
      step_seconds, stitch, finalCheck]
  · intro hp
    have h53 := (List.pairwise_cons.mp hp).1 3 (by simp)
    norm_num at h53

theorem overlap_head_gt (last : ℚ) (t : List ℚ) :
    ∀ y, (t.drop (overlapCount last t)).head? = some y → last + tol < y := by
  induction t with
  | nil => intro y hy; exact absurd hy (by simp)
  | cons x xs ih =>
    intro y hy
    rw [overlapCount] at hy
    by_cases hx : x ≤ last + tol
    · rw [if_pos hx, List.drop_succ_cons] at hy
      exact ih y hy
    · rw [if_neg hx, List.drop_zero, List.head?_cons] at hy
      injection hy with hy
      subst hy
      exact not_le.mp hx

theorem stitch_chain (accT accPv t pv : List ℚ)
    (ha : accT.Chain' (fun a b => a + tol < b))
    (ht : t.Chain' (fun a b => a + tol < b)) :
    (stitch accT accPv t pv).1.Chain' (fun a b => a + tol < b) := by
  unfold stitch
  rcases hlast : accT.getLast? with _ | last
  · exact ht
  · simp only
    by_cases hlt : overlapCount last t < t.length
    · rw [if_pos hlt]
      rw [List.chain'_append]
      refine ⟨ha, ht.drop _, ?_⟩
      intro x hx y hy
      rw [hlast, Option.mem_some_iff] at hx
      subst hx
      exact overlap_head_gt _ t y hy
    · rw [if_neg hlt]
      exact ha

theorem chunkedLoop_ok_chain (fetch : ℚ → ℚ → FetchResult) (stop span : ℚ)
    (hfrag : ∀ s e t pv, fetch s e = .success t pv →
      t.Chain' (fun a b => a + tol < b)) :
    ∀ (fuel : ℕ) (cursor : ℚ) (accT accPv T PV : List ℚ),
      accT.Chain' (fun a b => a + tol < b) →
      chunkedLoop fetch stop span fuel cursor accT accPv = some (.ok T PV) →
      T.Chain' (fun a b => a + tol < b) := by
  intro fuel
  induction fuel with
  | zero => intro cursor accT accPv T PV _ h; exact absurd h (by simp [chunkedLoop])
  | succ fuel ih =>
    intro cursor accT accPv T PV hacc h
    by_cases hcur : cursor < stop
    · rcases hfetch : fetch cursor (chunkStopOf stop span cursor) with ⟨t', pv'⟩ | e | _
      · have hst := stitch_chain accT accPv t' pv' hacc (hfrag _ _ _ _ hfetch)
        by_cases hstopc : chunkStopOf stop span cursor = cursor
        · rw [chunkedLoop_success_break fetch stop span cursor fuel accT accPv t' pv'
            hcur hfetch hstopc] at h
          injection h with h
          obtain ⟨hT, _, _, _⟩ := finalCheck_eq_ok _ _ _ _ h
          exact hT ▸ hst
        · rw [chunkedLoop_success_advance fetch stop span cursor fuel accT accPv t' pv'
            hcur hfetch hstopc] at h
          exact ih _ _ _ _ _ hst h
      · by_cases he : stop ≤ e
        · rw [chunkedLoop_tooEarly_fatal fetch stop span cursor fuel accT accPv e
            hcur hfetch he] at h
          exact absurd h (by simp)
        · rw [chunkedLoop_tooEarly_retry fetch stop span cursor fuel accT accPv e
            hcur hfetch (not_le.mp he)] at h
          exact ih _ _ _ _ _ hacc h
      · rw [chunkedLoop_fatal fetch stop span cursor fuel accT accPv hcur hfetch] at h
        exact absurd h (by simp)
    · rw [chunkedLoop_exit fetch stop span cursor fuel accT accPv hcur] at h
      injection h with h
      obtain ⟨hT, _, _, _⟩ := finalCheck_eq_ok _ _ _ _ h
      exact hT ▸ hacc

/-- C5 amended: for every fetch oracle whose fragments are strictly
increasing with consecutive epochs more than the tolerance apart (as every
genuine Horizons grid is), any returned series has strictly increasing
epochs, any two of which differ by more than the tolerance.  The unmodified
claim — over arbitrary parser-producible fragments — is refuted by
`chunked_unsorted_fragment_not_increasing`. -/
theorem chunked_sorted_fragments_increasing
    (fetch : ℚ → ℚ → FetchResult) (start stop : ℚ) (n : ℕ) (u : StepUnit)
    (ms fuel : ℕ) (T PV : List ℚ)
    (hfrag : ∀ s e t pv, fetch s e = .success t pv →
      t.Chain' (fun a b => a + tol < b))
    (hok : horizons_vectors_chunked fetch start stop n u ms fuel = some (.ok T PV)) :
    T.Pairwise (fun a b => a < b ∧ tol < b - a) := by
  have htol : (0 : ℚ) < tol := by norm_num [tol]
  have hchain : T.Chain' (fun a b => a + tol < b) :=
    chunkedLoop_ok_chain fetch stop _ hfrag fuel start [] [] T PV (by simp) hok
  haveI : IsTrans ℚ (fun a b : ℚ => a + tol < b) :=
    ⟨fun a b c hab hbc => by linarith⟩
  have hpw := List.chain'_iff_pairwise.mp hchain
  exact hpw.imp fun {a b} h => ⟨by linarith, by linarith⟩

/-- A fetch oracle serving a genuine sorted two-sample fragment. -/
def sortedFetch : ℚ → ℚ → FetchResult :=
  fun _ _ => .success [100, 101] (List.replicate 12 0)

/-- Witness for the amended C5 at the concrete oracle `sortedFetch`. -/
theorem chunked_sorted_fragments_increasing_w :
    ([100, 101] : List ℚ).Pairwise (fun a b => a < b ∧ tol < b - a) :=
  chunked_sorted_fragments_increasing sortedFetch 100 101 1 .d 2000 5
    [100, 101] (List.replicate 12 0)
    (fun s e t pv h => by
      injection h with h1 h2
      subst h1
      norm_num [List.chain'_cons, tol])
    (by norm_num [horizons_vectors_chunked, chunkedLoop, chunkStopOf, sortedFetch,
      stepDays, step_seconds, stitch, finalCheck])

end StarEphem

namespace StarEphem

/-! ### C9: termination -/

/-- Whole-second timestamps on the day axis: exactly the values the
program's datetime layer can produce.  `parse_utcish` parses whole
seconds, `parse_earliest_from_error` builds a whole-second `datetime`
(the regex groups are whole seconds, microseconds are zeroed) and adds one
second, and the chunk span is a whole number of seconds — so every window
bound, every cursor and every reportable `StartTooEarly` epoch has this
shape. -/
def isWholeSec (q : ℚ) : Prop := ∃ z : ℤ, q = z / 86400

theorem isWholeSec_add (a b : ℚ) (ha : isWholeSec a) (hb : isWholeSec b) :
    isWholeSec (a + b) := by
  obtain ⟨x, rfl⟩ := ha
  obtain ⟨y, rfl⟩ := hb
  exact ⟨x + y, by push_cast; ring⟩

/-- The granularity bound: two distinct whole-second instants are at least
one second apart. -/
theorem wholeSec_gap (a b : ℚ) (ha : isWholeSec a) (hb : isWholeSec b)
    (hab : a < b) : a + 1 / 86400 ≤ b := by
  obtain ⟨x, rfl⟩ := ha
  obtain ⟨y, rfl⟩ := hb
  have hxy : x < y := by
    by_contra hc
    push_neg at hc
    have hq : (y : ℚ) ≤ (x : ℚ) := by exact_mod_cast hc
    have hdiv : (y : ℚ) / 86400 ≤ (x : ℚ) / 86400 := by gcongr
    linarith
  have h1q : (x : ℚ) + 1 ≤ (y : ℚ) := by exact_mod_cast hxy
  rw [div_add_div_same]
  gcongr

theorem chunkStop_gt (stop span cursor : ℚ) (hcur : cursor < stop) (hspan : 0 < span) :
    cursor < chunkStopOf stop span cursor := by
  unfold chunkStopOf
  by_cases hc : stop < cursor + span
  · rw [if_pos hc]; exact hcur
  · rw [if_neg hc]; linarith

theorem isWholeSec_chunkStop (stop span cursor : ℚ) (h1 : isWholeSec stop)
    (h2 : isWholeSec span) (h3 : isWholeSec cursor) :
    isWholeSec (chunkStopOf stop span cursor) := by
  unfold chunkStopOf
  by_cases hc : stop < cursor + span
  · rw [if_pos hc]; exact h1
  · rw [if_neg hc]; exact isWholeSec_add cursor span h3 h2

theorem stepDays_pos (n : ℕ) (u : StepUnit) (hn : 1 ≤ n) : 0 < stepDays n u := by
  have h : 0 < step_seconds n u := by cases u <;> simp [step_seconds] <;> omega
  unfold stepDays
  exact div_pos (by exact_mod_cast h) (by norm_num)

/-- The chunk span `step_s * (MAX_SAMPLES_PER_CALL - 1)` is a whole number
of seconds. -/
theorem isWholeSec_span (n : ℕ) (u : StepUnit) (ms : ℕ) :
    isWholeSec (stepDays n u * ((ms : ℚ) - 1)) := by
  refine ⟨(step_seconds n u : ℤ) * ((ms : ℤ) - 1), ?_⟩
  unfold stepDays
  push_cast
  ring

/-- Termination of the chunk loop when every `StartTooEarly` epoch answered
to a whole-second sub-query start is strictly later (hence, by
`wholeSec_gap`, at least one second later) and itself whole-second.  The
measure is the remaining window span in units of
`min(1 second, chunkSpan)`. -/
theorem chunkedLoop_terminates_sec (fetch : ℚ → ℚ → FetchResult) (stop span : ℚ)
    (hspan : 0 < span) (hspansec : isWholeSec span) (hstopsec : isWholeSec stop)
    (hshift : ∀ s e E, isWholeSec s → fetch s e = .tooEarly E →
      s < E ∧ isWholeSec E) :
    ∀ (N : ℕ) (cursor : ℚ) (accT accPv : List ℚ), isWholeSec cursor →
      stop - cursor ≤ N * min (1 / 86400) span →
      ∃ fuel, chunkedLoop fetch stop span fuel cursor accT accPv ≠ none := by
  intro N
  induction N with
  | zero =>
    intro cursor accT accPv _ hN
    refine ⟨1, ?_⟩
    have hc : ¬ cursor < stop := by
      simp only [Nat.cast_zero, zero_mul] at hN
      push_neg
      linarith
    rw [chunkedLoop_exit fetch stop span cursor 0 accT accPv hc]
    simp
  | succ N ih =>
    intro cursor accT accPv hcursec hN
    by_cases hcur : cursor < stop
    · rcases hfetch : fetch cursor (chunkStopOf stop span cursor) with ⟨t', pv'⟩ | e | _
      · have hgt : cursor < chunkStopOf stop span cursor :=
          chunkStop_gt stop span cursor hcur hspan
        have hcs' : isWholeSec (chunkStopOf stop span cursor) :=
          isWholeSec_chunkStop stop span cursor hstopsec hspansec hcursec
        have hrem : stop - chunkStopOf stop span cursor
            ≤ N * min (1 / 86400) span := by
          unfold chunkStopOf
          by_cases hc : stop < cursor + span
          · rw [if_pos hc]
            have hpos : (0 : ℚ) ≤ N * min (1 / 86400) span := by positivity
            linarith
          · rw [if_neg hc]
            have hms : min (1 / 86400 : ℚ) span ≤ span := min_le_right _ _
            push_cast at hN
            linarith
        obtain ⟨fuel, hf⟩ := ih (chunkStopOf stop span cursor)
          (stitch accT accPv t' pv').1 (stitch accT accPv t' pv').2 hcs' hrem
        refine ⟨fuel + 1, ?_⟩
        rw [chunkedLoop_success_advance fetch stop span cursor fuel accT accPv t' pv'
          hcur hfetch hgt.ne']
        exact hf
      · by_cases he : stop ≤ e
        · exact ⟨1, by
            rw [chunkedLoop_tooEarly_fatal fetch stop span cursor 0 accT accPv e
              hcur hfetch he]
            simp⟩
        · obtain ⟨hlt, hesec⟩ := hshift _ _ _ hcursec hfetch
          have hgap := wholeSec_gap cursor e hcursec hesec hlt
          have hrem : stop - e ≤ N * min (1 / 86400) span := by
            have hmd : min (1 / 86400 : ℚ) span ≤ 1 / 86400 := min_le_left _ _
            push_cast at hN
            linarith
          obtain ⟨fuel, hf⟩ := ih e accT accPv hesec hrem
          exact ⟨fuel + 1, by
            rw [chunkedLoop_tooEarly_retry fetch stop span cursor fuel accT accPv e
              hcur hfetch (not_le.mp he)]
            exact hf⟩
      · exact ⟨1, by
          rw [chunkedLoop_fatal fetch stop span cursor 0 accT accPv hcur hfetch]
          simp⟩
    · exact ⟨1, by
        rw [chunkedLoop_exit fetch stop span cursor 0 accT accPv hcur]
        simp⟩

/-- An oracle whose `StartTooEarly` epoch is exactly the sub-query start —
whole-second whenever the cursor is, but not strictly later: the loop has
no guard against such a non-advancing shift. -/
def stuckFetch : ℚ → ℚ → FetchResult := fun s _ => .tooEarly s

/-- C9: `horizons_vectors_chunked` terminates for every fetch oracle whose
`StartTooEarly` epochs are each strictly later than the sub-query start
they respond to.  The datetime layer only produces whole-second values
(`isWholeSec`) for window bounds, cursors and reportable epochs, so a
strictly-later shift advances the cursor by at least one second, and every
accepted fragment advances it by `min(chunkSpan, remaining) > 0`; the
number of iterations is thus bounded by the window span in units of
`min(1 second, chunkSpan)` (first conjunct).  The oracle hypothesis is
necessary: no guard in the loop enforces that a shifted start actually
advances, and an oracle reporting the sub-query start itself — a legal
whole-second epoch — loops forever (second conjunct). -/
theorem chunked_strict_shift_terminates :
    (∀ (fetch : ℚ → ℚ → FetchResult) (start stop : ℚ) (n : ℕ) (u : StepUnit)
        (ms : ℕ), 1 ≤ n → 2 ≤ ms → isWholeSec start → isWholeSec stop →
        (∀ s e E, isWholeSec s → fetch s e = .tooEarly E →
          s < E ∧ isWholeSec E) →
        ∃ fuel, horizons_vectors_chunked fetch start stop n u ms fuel ≠ none)
    ∧ (∀ fuel, horizons_vectors_chunked stuckFetch 0 1 1 .d 2000 fuel = none) := by
  constructor
  · intro fetch start stop n u ms hn hms hstartsec hstopsec hshift
    have hstep := stepDays_pos n u hn
    have hspan : 0 < stepDays n u * ((ms : ℚ) - 1) := by
      have hm : (2 : ℚ) ≤ (ms : ℚ) := by exact_mod_cast hms
      nlinarith
    have hmin : 0 < min (1 / 86400 : ℚ) (stepDays n u * ((ms : ℚ) - 1)) :=
      lt_min (by norm_num) hspan
    obtain ⟨N, hN⟩ := exists_nat_ge
      ((stop - start) / min (1 / 86400 : ℚ) (stepDays n u * ((ms : ℚ) - 1)))
    have hbound : stop - start
        ≤ N * min (1 / 86400 : ℚ) (stepDays n u * ((ms : ℚ) - 1)) := by
      rw [div_le_iff₀ hmin] at hN
      linarith
    obtain ⟨fuel, hf⟩ := chunkedLoop_terminates_sec fetch stop
      (stepDays n u * ((ms : ℚ) - 1)) hspan (isWholeSec_span n u ms) hstopsec
      hshift N start [] [] hstartsec hbound
    exact ⟨fuel, hf⟩
  · have key : ∀ (span : ℚ) (fuel : ℕ) (accT accPv : List ℚ),
        chunkedLoop stuckFetch 1 span fuel 0 accT accPv = none := by
      intro span fuel
      induction fuel with
      | zero => intro accT accPv; rfl
      | succ fuel ih =>
        intro accT accPv
        have hz : stuckFetch 0 (chunkStopOf 1 span 0) = .tooEarly 0 := rfl
        rw [chunkedLoop_tooEarly_retry stuckFetch 1 span 0 fuel accT accPv 0
          (by norm_num) hz (by norm_num)]
        exact ih accT accPv
    intro fuel
    exact key _ fuel [] []

/-- Oracle for the C9 witness: one genuine `StartTooEarly` answer shifting
the cursor to the whole-second epoch `1`, then success fragments. -/
def c9Fetch : ℚ → ℚ → FetchResult :=
  fun s _ => if s < 1 then .tooEarly 1 else .success [1, 2] (List.replicate 12 0)

/-- Witness for C9: the termination conjunct at an oracle that actually
answers the first sub-query with a strictly-later whole-second shift. -/
theorem chunked_strict_shift_terminates_w :
    ∃ fuel, horizons_vectors_chunked c9Fetch 0 2 1 .d 2000 fuel ≠ none :=
  chunked_strict_shift_terminates.1 c9Fetch 0 2 1 .d 2000
    (by norm_num) (by norm_num) ⟨0, by norm_num⟩ ⟨172800, by norm_num⟩
    (fun s e E hs h => by
      unfold c9Fetch at h
      by_cases hlt : s < 1
      · rw [if_pos hlt] at h
        injection h with h
        subst h
        exact ⟨hlt, ⟨86400, by norm_num⟩⟩
      · rw [if_neg hlt] at h
        exact absurd h (by simp))

end StarEphem

namespace StarEphem

/-! ### C1: exact-multiple windows against a grid oracle -/

theorem stepDays_gt_tol (n : ℕ) (u : StepUnit) (hn : 1 ≤ n) : tol < stepDays n u := by
  have h60 : (60 : ℚ) ≤ (step_seconds n u : ℚ) := by
    have h : 60 ≤ step_seconds n u := by
      cases u <;> simp [step_seconds] <;> omega
    exact_mod_cast h
  have h1 : (60 : ℚ) / 86400 ≤ (step_seconds n u : ℚ) / 86400 := by gcongr
  have h2 : tol < (60 : ℚ) / 86400 := by norm_num [tol]
  unfold stepDays
  linarith

theorem gridPoints_exact (step : ℚ) (h0 : 0 < step) (c : ℚ) (j : ℕ) :
    gridPoints step c (c + j * step) = j + 1 := by
  unfold gridPoints
  have h : (c + j * step - c) / step = (j : ℚ) := by
    field_simp
  rw [h, Int.floor_natCast, Int.toNat_natCast]

theorem overlapCount_grid (c s : ℚ) (hs : tol < s) (m : ℕ) :
    overlapCount c (grid c s (m + 1)) = 1 := by
  have htol : (0 : ℚ) < tol := by norm_num [tol]
  rw [grid_succ_cons]
  simp only [overlapCount]
  rw [if_pos (by linarith)]
  cases m with
  | zero =>
    rw [grid_zero]
    rfl
  | succ m =>
    rw [grid_succ_cons]
    simp only [overlapCount]
    rw [if_neg (by linarith)]

theorem stitch_nil (accPv t pv : List ℚ) : stitch [] accPv t pv = (t, pv) := rfl

theorem stitch_grid (accT accPv pv : List ℚ) (c s : ℚ) (hs : tol < s) (m : ℕ)
    (hm : 1 ≤ m) (hlast : accT.getLast? = some c) :
    stitch accT accPv (grid c s (m + 1)) pv
      = (accT ++ grid (c + s) s m, accPv ++ pv.drop 6) := by
  unfold stitch
  rw [hlast]
  simp only
  rw [overlapCount_grid c s hs m]
  rw [if_pos (by rw [grid_length]; omega)]
  congr 1
  · rw [grid_succ_cons]
    rfl

theorem chunkStop_grid (step : ℚ) (h0 : 0 < step) (k r : ℕ) (_hk : 1 ≤ k) (_hr : 1 ≤ r)
    (c : ℚ) :
    chunkStopOf (c + r * step) (step * k) c = c + (min k r : ℕ) * step := by
  unfold chunkStopOf
  by_cases hc : c + r * step < c + step * k
  · rw [if_pos hc]
    have h1 : (r : ℚ) * step < (k : ℚ) * step := by linarith
    have hrk : r < k := by exact_mod_cast (mul_lt_mul_right h0).mp h1
    rw [min_eq_right hrk.le]
  · rw [if_neg hc]
    push_neg at hc
    have h1 : (k : ℚ) * step ≤ (r : ℚ) * step := by linarith
    have hkr : k ≤ r := by exact_mod_cast le_of_mul_le_mul_right h1 h0
    rw [min_eq_left hkr]
    ring

theorem chunkedLoop_grid (step : ℚ) (hstep : tol < step) (pvf : ℚ → ℚ → List ℚ)
    (hpvf : ∀ s e, (pvf s e).length
      = 6 * (grid s step (gridPoints step s e)).length)
    (k : ℕ) (hk : 1 ≤ k) :
    ∀ r : ℕ, 1 ≤ r → ∀ (c : ℚ) (accT accPv : List ℚ) (fuel : ℕ),
      r + 1 ≤ fuel →
      accT.getLast? = some c → 2 ≤ accT.length → accPv.length = 6 * accT.length →
      ∃ PV, chunkedLoop (gridOracle step pvf) (c + r * step) (step * k) fuel c accT accPv
          = some (.ok (accT ++ grid (c + step) step r) PV) := by
  have htol : (0 : ℚ) < tol := by norm_num [tol]
  have hstep0 : 0 < step := lt_trans htol hstep
  intro r
  induction r using Nat.strong_induction_on with
  | _ r ih =>
    intro hr c accT accPv fuel hfuel hlast hlen hpvlen
    have hr1 : (1 : ℚ) ≤ (r : ℚ) := by exact_mod_cast hr
    have hcur : c < c + r * step := by nlinarith
    obtain ⟨f, rfl⟩ : ∃ f, fuel = f + 1 := ⟨fuel - 1, by omega⟩
    by_cases hcase : r ≤ k
    · -- the chunk reaches the window stop: one sub-query finishes the job
      have hcs : chunkStopOf (c + r * step) (step * k) c = c + r * step := by
        rw [chunkStop_grid step hstep0 k r hk hr c, min_eq_right hcase]
      have hpts : gridPoints step c (c + r * step) = r + 1 :=
        gridPoints_exact step hstep0 c r
      have hfq : gridOracle step pvf c (chunkStopOf (c + r * step) (step * k) c)
          = .success (grid c step (r + 1)) (pvf c (c + r * step)) := by
        rw [hcs]
        unfold gridOracle
        rw [hpts]
      have hne : chunkStopOf (c + r * step) (step * k) c ≠ c := by
        rw [hcs]
        exact hcur.ne'
      rw [chunkedLoop_success_advance (gridOracle step pvf) (c + r * step) (step * k) c f
        accT accPv (grid c step (r + 1)) (pvf c (c + r * step)) hcur hfq hne, hcs,
        stitch_grid accT accPv (pvf c (c + r * step)) c step hstep r hr hlast]
      dsimp only
      obtain ⟨f', rfl⟩ : ∃ f', f = f' + 1 := ⟨f - 1, by omega⟩
      rw [chunkedLoop_exit (gridOracle step pvf) (c + r * step) (step * k) (c + r * step) f'
        _ _ (lt_irrefl _)]
      refine ⟨accPv ++ (pvf c (c + r * step)).drop 6, ?_⟩
      have hpvq : (pvf c (c + r * step)).length = 6 * (r + 1) := by
        rw [hpvf c (c + r * step), hpts, grid_length]
      have hcond : ¬((accT ++ grid (c + step) step r).length < 2
          ∨ (accPv ++ (pvf c (c + r * step)).drop 6).length
              ≠ 6 * (accT ++ grid (c + step) step r).length) := by
        push_neg
        rw [List.length_append, grid_length, List.length_append, List.length_drop, hpvq]
        constructor <;> omega
      congr 1
      unfold finalCheck
      rw [if_neg hcond]
    · -- a full chunk, then recurse on the remaining window
      push_neg at hcase
      have hcs : chunkStopOf (c + r * step) (step * k) c = c + k * step := by
        rw [chunkStop_grid step hstep0 k r hk hr c, min_eq_left hcase.le]
      have hpts : gridPoints step c (c + k * step) = k + 1 :=
        gridPoints_exact step hstep0 c k
      have hfq : gridOracle step pvf c (chunkStopOf (c + r * step) (step * k) c)
          = .success (grid c step (k + 1)) (pvf c (c + k * step)) := by
        rw [hcs]
        unfold gridOracle
        rw [hpts]
      have hk1 : (1 : ℚ) ≤ (k : ℚ) := by exact_mod_cast hk
      have hne : chunkStopOf (c + r * step) (step * k) c ≠ c := by
        rw [hcs]
        exact (by nlinarith : c < c + (k : ℚ) * step).ne'
      rw [chunkedLoop_success_advance (gridOracle step pvf) (c + r * step) (step * k) c f
        accT accPv (grid c step (k + 1)) (pvf c (c + k * step)) hcur hfq hne, hcs,
        stitch_grid accT accPv (pvf c (c + k * step)) c step hstep k hk hlast]
      dsimp only
      have hpvq : (pvf c (c + k * step)).length = 6 * (k + 1) := by
        rw [hpvf c (c + k * step), hpts, grid_length]
      have hlast' : (accT ++ grid (c + step) step k).getLast? = some (c + k * step) := by
        obtain ⟨k', rfl⟩ : ∃ k', k = k' + 1 := ⟨k - 1, by omega⟩
        rw [List.getLast?_append_of_ne_nil accT (by rw [grid_succ_cons]; simp),
          grid_getLast]
        congr 1
        push_cast
        ring
      have hlen' : 2 ≤ (accT ++ grid (c + step) step k).length := by
        rw [List.length_append, grid_length]
        omega
      have hpvlen' : (accPv ++ (pvf c (c + k * step)).drop 6).length
          = 6 * (accT ++ grid (c + step) step k).length := by
        rw [List.length_append, List.length_drop, hpvq, List.length_append, grid_length]
        omega
      have hstop' : c + (r : ℚ) * step = (c + k * step) + ((r - k : ℕ) : ℚ) * step := by
        push_cast [Nat.cast_sub hcase.le]
        ring
      rw [hstop']
      obtain ⟨PV, hPV⟩ := ih (r - k) (by omega) (by omega) (c + k * step)
        (accT ++ grid (c + step) step k) (accPv ++ (pvf c (c + k * step)).drop 6)
        f (by omega) hlast' hlen' hpvlen'
      have hlist : (accT ++ grid (c + step) step k)
            ++ grid ((c + k * step) + step) step (r - k)
          = accT ++ grid (c + step) step r := by
        rw [List.append_assoc]
        have harith : (c + (k : ℚ) * step) + step = (c + step) + (k : ℚ) * step := by ring
        rw [harith, grid_append]
        have hsum : k + (r - k) = r := by omega
        rw [hsum]
      exact ⟨PV, by rw [hPV, hlist]⟩

end StarEphem

namespace StarEphem

/-- The general part of C1: for a window whose span is the exact positive
multiple `w` of the step, the grid oracle yields the full inclusive grid
`start, start+step, …, stop` in one run. -/
theorem chunked_grid_general (n : ℕ) (u : StepUnit) (start : ℚ) (w ms fuel : ℕ)
    (pvf : ℚ → ℚ → List ℚ) (hn : 1 ≤ n) (hw : 1 ≤ w) (hms : 2 ≤ ms)
    (hfuel : w + 2 ≤ fuel)
    (hpvf : ∀ s e, (pvf s e).length
      = 6 * (grid s (stepDays n u) (gridPoints (stepDays n u) s e)).length) :
    ∃ PV,
      horizons_vectors_chunked (gridOracle (stepDays n u) pvf) start
          (start + w * stepDays n u) n u ms fuel
        = some (.ok (grid start (stepDays n u) (w + 1)) PV) := by
  have htol : (0 : ℚ) < tol := by norm_num [tol]
  have hstep : tol < stepDays n u := stepDays_gt_tol n u hn
  have hstep0 : 0 < stepDays n u := lt_trans htol hstep
  have hw1 : (1 : ℚ) ≤ (w : ℚ) := by exact_mod_cast hw
  obtain ⟨k, rfl⟩ : ∃ k, ms = k + 1 := ⟨ms - 1, by omega⟩
  have hk : 1 ≤ k := by omega
  have hkq : ((k + 1 : ℕ) : ℚ) - 1 = (k : ℚ) := by push_cast; ring
  have hspan : stepDays n u * (((k + 1 : ℕ) : ℚ) - 1) = stepDays n u * (k : ℚ) := by
    rw [hkq]
  have hunfold : horizons_vectors_chunked (gridOracle (stepDays n u) pvf) start
      (start + w * stepDays n u) n u (k + 1) fuel
      = chunkedLoop (gridOracle (stepDays n u) pvf) (start + w * stepDays n u)
          (stepDays n u * (k : ℚ)) fuel start [] [] := by
    simp only [horizons_vectors_chunked]
    rw [hspan]
  rw [hunfold]
  have hcur : start < start + (w : ℚ) * stepDays n u := by nlinarith
  obtain ⟨f, rfl⟩ : ∃ f, fuel = f + 1 := ⟨fuel - 1, by omega⟩
  by_cases hcase : w ≤ k
  · -- a single sub-query covers the whole window
    have hcs : chunkStopOf (start + w * stepDays n u) (stepDays n u * k) start
        = start + w * stepDays n u := by
      rw [chunkStop_grid (stepDays n u) hstep0 k w hk hw start, min_eq_right hcase]
    have hpts : gridPoints (stepDays n u) start (start + w * stepDays n u) = w + 1 :=
      gridPoints_exact (stepDays n u) hstep0 start w
    have hfq : gridOracle (stepDays n u) pvf start
        (chunkStopOf (start + w * stepDays n u) (stepDays n u * k) start)
        = .success (grid start (stepDays n u) (w + 1))
            (pvf start (start + w * stepDays n u)) := by
      rw [hcs]
      unfold gridOracle
      rw [hpts]
    have hne : chunkStopOf (start + w * stepDays n u) (stepDays n u * k) start ≠ start := by
      rw [hcs]
      exact hcur.ne'
    rw [chunkedLoop_success_advance (gridOracle (stepDays n u) pvf)
      (start + w * stepDays n u) (stepDays n u * k) start f [] []
      (grid start (stepDays n u) (w + 1)) (pvf start (start + w * stepDays n u))
      hcur hfq hne, hcs, stitch_nil]
    dsimp only
    obtain ⟨f', rfl⟩ : ∃ f', f = f' + 1 := ⟨f - 1, by omega⟩
    rw [chunkedLoop_exit (gridOracle (stepDays n u) pvf) (start + w * stepDays n u)
      (stepDays n u * k) (start + w * stepDays n u) f' _ _ (lt_irrefl _)]
    refine ⟨pvf start (start + w * stepDays n u), ?_⟩
    have hpvq : (pvf start (start + w * stepDays n u)).length = 6 * (w + 1) := by
      rw [hpvf start (start + w * stepDays n u), hpts, grid_length]
    have hcond : ¬((grid start (stepDays n u) (w + 1)).length < 2
        ∨ (pvf start (start + w * stepDays n u)).length
            ≠ 6 * (grid start (stepDays n u) (w + 1)).length) := by
      push_neg
      rw [grid_length, hpvq]
      constructor <;> omega
    congr 1
    unfold finalCheck
    rw [if_neg hcond]
  · -- first chunk covers `k` steps, the loop lemma finishes the rest
    push_neg at hcase
    have hcs : chunkStopOf (start + w * stepDays n u) (stepDays n u * k) start
        = start + k * stepDays n u := by
      rw [chunkStop_grid (stepDays n u) hstep0 k w hk hw start, min_eq_left hcase.le]
    have hpts : gridPoints (stepDays n u) start (start + k * stepDays n u) = k + 1 :=
      gridPoints_exact (stepDays n u) hstep0 start k
    have hfq : gridOracle (stepDays n u) pvf start
        (chunkStopOf (start + w * stepDays n u) (stepDays n u * k) start)
        = .success (grid start (stepDays n u) (k + 1))
            (pvf start (start + k * stepDays n u)) := by
      rw [hcs]
      unfold gridOracle
      rw [hpts]
    have hk1 : (1 : ℚ) ≤ (k : ℚ) := by exact_mod_cast hk
    have hne : chunkStopOf (start + w * stepDays n u) (stepDays n u * k) start ≠ start := by
      rw [hcs]
      exact (by nlinarith : start < start + (k : ℚ) * stepDays n u).ne'
    rw [chunkedLoop_success_advance (gridOracle (stepDays n u) pvf)
      (start + w * stepDays n u) (stepDays n u * k) start f [] []
      (grid start (stepDays n u) (k + 1)) (pvf start (start + k * stepDays n u))
      hcur hfq hne, hcs, stitch_nil]
    have hpvq : (pvf start (start + k * stepDays n u)).length = 6 * (k + 1) := by
      rw [hpvf start (start + k * stepDays n u), hpts, grid_length]
    have hlast : (grid start (stepDays n u) (k + 1)).getLast?
        = some (start + k * stepDays n u) := grid_getLast start (stepDays n u) k
    have hlen : 2 ≤ (grid start (stepDays n u) (k + 1)).length := by
      rw [grid_length]
      omega
    have hpvlen : (pvf start (start + k * stepDays n u)).length
        = 6 * (grid start (stepDays n u) (k + 1)).length := by
      rw [hpvq, grid_length]
    have hstop' : start + (w : ℚ) * stepDays n u
        = (start + k * stepDays n u) + ((w - k : ℕ) : ℚ) * stepDays n u := by
      push_cast [Nat.cast_sub hcase.le]
      ring
    rw [hstop']
    obtain ⟨PV, hPV⟩ := chunkedLoop_grid (stepDays n u) hstep pvf hpvf k hk
      (w - k) (by omega) (start + k * stepDays n u)
      (grid start (stepDays n u) (k + 1)) (pvf start (start + k * stepDays n u))
      f (by omega) hlast hlen hpvlen
    have hlist : grid start (stepDays n u) (k + 1)
          ++ grid ((start + k * stepDays n u) + stepDays n u) (stepDays n u) (w - k)
        = grid start (stepDays n u) (w + 1) := by
      have harith : (start + (k : ℚ) * stepDays n u) + stepDays n u
          = start + ((k + 1 : ℕ) : ℚ) * stepDays n u := by push_cast; ring
      rw [harith, grid_append]
      have hsum : (k + 1) + (w - k) = w + 1 := by omega
      rw [hsum]
    exact ⟨PV, by rw [hPV, hlist]⟩

end StarEphem

namespace StarEphem

/-- C1: for every window whose span is an exact positive multiple `w` of the
step, against any oracle answering each sub-query with its inclusive grid,
the fetch succeeds and returns exactly the epochs
`start, start+step, …, stop` — `⌊(stop-start)/step⌋ + 1` samples, starting
at `start` and ending at `stop` (first conjunct).  With
`maxSamplesPerCall = 2` on the window `[2443388, 2443390]` at step 1 day it
issues exactly the two sub-queries `[2443388, 2443389]`, `[2443389, 2443390]`
(second conjunct) and stitches to `[2443388, 2443389, 2443390]` with no
duplicated boundary sample (third conjunct). -/
theorem chunked_exact_multiple_grid :
    (∀ (n : ℕ) (u : StepUnit) (start : ℚ) (w ms fuel : ℕ) (pvf : ℚ → ℚ → List ℚ),
        1 ≤ n → 1 ≤ w → 2 ≤ ms → w + 2 ≤ fuel →
        (∀ s e, (pvf s e).length
          = 6 * (grid s (stepDays n u) (gridPoints (stepDays n u) s e)).length) →
        ∃ PV,
          horizons_vectors_chunked (gridOracle (stepDays n u) pvf) start
              (start + w * stepDays n u) n u ms fuel
            = some (.ok (grid start (stepDays n u) (w + 1)) PV)
          ∧ (grid start (stepDays n u) (w + 1)).length
              = (⌊(start + w * stepDays n u - start) / stepDays n u⌋).toNat + 1
          ∧ (grid start (stepDays n u) (w + 1)).head? = some start
          ∧ (grid start (stepDays n u) (w + 1)).getLast?
              = some (start + w * stepDays n u))
    ∧ (∀ pvf : ℚ → ℚ → List ℚ,
        chunkedQueries (gridOracle 1 pvf) 2443390 1 5 2443388
          = [(2443388, 2443389), (2443389, 2443390)])
    ∧ (∀ pvf : ℚ → ℚ → List ℚ,
        (∀ s e, (pvf s e).length = 6 * (grid s 1 (gridPoints 1 s e)).length) →
        ∃ PV, horizons_vectors_chunked (gridOracle 1 pvf) 2443388 2443390 1 .d 2 10
          = some (.ok [2443388, 2443389, 2443390] PV)) := by
  have hone : stepDays 1 .d = 1 := by
    norm_num [stepDays, step_seconds]
  refine ⟨?_, ?_, ?_⟩
  · intro n u start w ms fuel pvf hn hw hms hfuel hpvf
    obtain ⟨PV, hPV⟩ := chunked_grid_general n u start w ms fuel pvf hn hw hms hfuel hpvf
    have hstep0 : 0 < stepDays n u :=
      lt_trans (by norm_num [tol]) (stepDays_gt_tol n u hn)
    refine ⟨PV, hPV, ?_, grid_head start (stepDays n u) w,
      grid_getLast start (stepDays n u) w⟩
    rw [grid_length]
    have hq : (start + w * stepDays n u - start) / stepDays n u = (w : ℚ) := by
      field_simp
    rw [hq, Int.floor_natCast, Int.toNat_natCast]
  · intro pvf
    norm_num [chunkedQueries, chunkStopOf, gridOracle]
  · intro pvf hpvf
    have hpvf' : ∀ s e, (pvf s e).length
        = 6 * (grid s (stepDays 1 .d) (gridPoints (stepDays 1 .d) s e)).length := by
      intro s e
      rw [hone]
      exact hpvf s e
    obtain ⟨PV, hPV⟩ := chunked_grid_general 1 .d 2443388 2 2 10 pvf
      (by norm_num) (by norm_num) (by norm_num) (by norm_num) hpvf'
    refine ⟨PV, ?_⟩
    rw [hone] at hPV
    have hgrid3 : grid 2443388 1 (2 + 1) = [2443388, 2443389, 2443390] := by
      rw [grid_succ_cons, grid_succ_cons, grid_succ_cons, grid_zero]
      norm_num
    rw [hgrid3] at hPV
    have hstop : (2443388 : ℚ) + (2 : ℕ) * 1 = 2443390 := by norm_num
    rw [hstop] at hPV
    exact hPV

/-- Witness for C1's general conjunct at `n = 1` day, `start = 0`, `w = 1`,
`maxSamplesPerCall = 2`. -/
theorem chunked_exact_multiple_grid_w :
    ∃ PV,
      horizons_vectors_chunked
          (gridOracle (stepDays 1 .d)
            (fun s e => List.replicate
              (6 * (grid s (stepDays 1 .d) (gridPoints (stepDays 1 .d) s e)).length) 0))
          0 (0 + (1 : ℕ) * stepDays 1 .d) 1 .d 2 3
        = some (.ok (grid 0 (stepDays 1 .d) (1 + 1)) PV)
      ∧ (grid 0 (stepDays 1 .d) (1 + 1)).length
          = (⌊(0 + (1 : ℕ) * stepDays 1 .d - 0) / stepDays 1 .d⌋).toNat + 1
      ∧ (grid 0 (stepDays 1 .d) (1 + 1)).head? = some 0
      ∧ (grid 0 (stepDays 1 .d) (1 + 1)).getLast?
          = some (0 + (1 : ℕ) * stepDays 1 .d) :=
  chunked_exact_multiple_grid.1 1 .d 0 1 2 3
    (fun s e => List.replicate
      (6 * (grid s (stepDays 1 .d) (gridPoints (stepDays 1 .d) s e)).length) 0)
    (by norm_num) (by norm_num) (by norm_num) (by norm_num)
    (fun s e => by rw [List.length_replicate])

end StarEphem

namespace StarEphem

/-! ### C7: `parse_vectors` (identical to `_parse_vectors_csv_block`) -/

/-- One raw line of a `$$SOE`/`$$EOE` block, abstracted to what the parser
inspects: whether the stripped line begins with a digit
(`re.match(r"^\d", line)` on a non-blank line), and its comma-separated
fields, each recorded as `some q` when `float(field)` succeeds and `none`
when it raises `ValueError` (or is the non-numeric calendar column). -/
structure RawLine where
  startsDigit : Bool
  fields : List (Option ℚ)
deriving DecidableEq

/-- `float(parts[i])`: the `i`-th field's parse result (out-of-range reads
never occur, the branch lengths are checked first). -/
def floatAt (l : RawLine) (i : ℕ) : Option ℚ := l.fields.getD i none

/-- `map(float, …)` over a slice: all fields must parse, in order. -/
def seqQ : List (Option ℚ) → Option (List ℚ)
  | [] => some []
  | o :: os => o.bind (fun q => (seqQ os).map (fun qs => q :: qs))

/-- One iteration of the `for raw in block.splitlines()` loop: `none` means
the line is skipped (`continue`), `some (jd, v)` that `(jd, v)` is appended
to `t`/`pv`.  Mirrors the branch structure: ≥ 8 fields reads
`parts[0]` and `parts[2:8]`; exactly 7 reads `parts[0]` and `parts[1:7]`;
fewer than 7 fields, a non-digit start, or any float failure skips. -/
def parseLine (l : RawLine) : Option (ℚ × List ℚ) :=
  if !l.startsDigit then none
  else if 8 ≤ l.fields.length then
    match floatAt l 0,
        seqQ [floatAt l 2, floatAt l 3, floatAt l 4, floatAt l 5,
          floatAt l 6, floatAt l 7] with
    | some jd, some v => some (jd, v)
    | _, _ => none
  else if 7 ≤ l.fields.length then
    match floatAt l 0,
        seqQ [floatAt l 1, floatAt l 2, floatAt l 3, floatAt l 4,
          floatAt l 5, floatAt l 6] with
    | some jd, some v => some (jd, v)
    | _, _ => none
  else none

/-- `parse_vectors(block)`: collect the eligible lines, then
`if len(t) < 2 or len(pv) != len(t) * 6: raise RuntimeError`. -/
def parse_vectors (ls : List RawLine) : Option (List ℚ × List ℚ) :=
  let samples := ls.filterMap parseLine
  let t := samples.map Prod.fst
  let pv := (samples.map Prod.snd).flatten
  if t.length < 2 ∨ pv.length ≠ 6 * t.length then none else some (t, pv)

theorem seqQ_length : ∀ (os : List (Option ℚ)) (v : List ℚ),
    seqQ os = some v → v.length = os.length := by
  intro os
  induction os with
  | nil => intro v h; injection h with h; subst h; rfl
  | cons o os ih =>
    intro v h
    rcases o with _ | q
    · exact absurd h (by simp [seqQ])
    · rcases hs : seqQ os with _ | qs
      · rw [seqQ, hs] at h
        exact absurd h (by simp)
      · rw [seqQ, hs] at h
        simp at h
        subst h
        simp [ih qs hs]

theorem seqQ_none : ∀ os : List (Option ℚ), none ∈ os → seqQ os = none := by
  intro os
  induction os with
  | nil => intro h; exact absurd h (by simp)
  | cons o os ih =>
    intro h
    rcases List.mem_cons.mp h with h | h
    · rw [seqQ, ← h]
      rfl
    · rw [seqQ, ih h]
      rcases o with _ | q <;> rfl

theorem parseLine_snd_length (l : RawLine) (jd : ℚ) (v : List ℚ)
    (h : parseLine l = some (jd, v)) : v.length = 6 := by
  unfold parseLine at h
  split at h
  · exact absurd h (by simp)
  · split at h
    · rcases hf : floatAt l 0 with _ | q <;> rw [hf] at h
      · exact absurd h (by simp)
      · rcases hs : seqQ [floatAt l 2, floatAt l 3, floatAt l 4, floatAt l 5,
            floatAt l 6, floatAt l 7] with _ | qs <;> rw [hs] at h
        · exact absurd h (by simp)
        · injection h with h
          injection h with h1 h2
          subst h2
          simpa using seqQ_length _ _ hs
    · split at h
      · rcases hf : floatAt l 0 with _ | q <;> rw [hf] at h
        · exact absurd h (by simp)
        · rcases hs : seqQ [floatAt l 1, floatAt l 2, floatAt l 3, floatAt l 4,
              floatAt l 5, floatAt l 6] with _ | qs <;> rw [hs] at h
          · exact absurd h (by simp)
          · injection h with h
            injection h with h1 h2
            subst h2
            simpa using seqQ_length _ _ hs
      · exact absurd h (by simp)

theorem flatten_blocks_length : ∀ samples : List (ℚ × List ℚ),
    (∀ p ∈ samples, p.2.length = 6) →
    ((samples.map Prod.snd).flatten).length = 6 * samples.length := by
  intro samples
  induction samples with
  | nil => intro _; rfl
  | cons p ps ih =>
    intro h
    rw [List.map_cons, List.flatten_cons, List.length_append,
      h p (by simp), ih (fun q hq => h q (by simp [hq])), List.length_cons]
    ring

end StarEphem

namespace StarEphem

/-- C7: the parser skips — without raising — every line that does not begin
with a numeric token, every line with fewer than 7 comma-separated fields,
and every line whose required numeric fields fail to parse (first
conjunct); skipped lines leave the block's result unchanged (second
conjunct); after processing the whole block it raises iff fewer than 2
samples were parsed — the `6 ×` relation can never fail on its own since
vectors are appended in aligned blocks of 6 (third conjunct); and any block
that parses returns ≥ 2 samples with the `6 ×` relation (fourth
conjunct). -/
theorem parse_vectors_skip_and_postcondition :
    (∀ l : RawLine,
        l.startsDigit = false ∨ l.fields.length < 7
        ∨ (8 ≤ l.fields.length ∧ (floatAt l 0 = none
            ∨ none ∈ [floatAt l 2, floatAt l 3, floatAt l 4, floatAt l 5,
                floatAt l 6, floatAt l 7]))
        ∨ (l.fields.length = 7 ∧ (floatAt l 0 = none
            ∨ none ∈ [floatAt l 1, floatAt l 2, floatAt l 3, floatAt l 4,
                floatAt l 5, floatAt l 6])) →
        parseLine l = none)
    ∧ (∀ (ls1 ls2 : List RawLine) (l : RawLine), parseLine l = none →
        parse_vectors (ls1 ++ l :: ls2) = parse_vectors (ls1 ++ ls2))
    ∧ (∀ ls : List RawLine,
        parse_vectors ls = none ↔ (ls.filterMap parseLine).length < 2)
    ∧ (∀ (ls : List RawLine) (t pv : List ℚ), parse_vectors ls = some (t, pv) →
        2 ≤ t.length ∧ pv.length = 6 * t.length) := by
  have hlen6 : ∀ ls : List RawLine, ∀ p ∈ ls.filterMap parseLine, p.2.length = 6 := by
    intro ls p hp
    obtain ⟨l, _, hl⟩ := List.mem_filterMap.mp hp
    obtain ⟨jd, v⟩ := p
    exact parseLine_snd_length l jd v hl
  have hshape : ∀ ls : List RawLine, parse_vectors ls
      = if (ls.filterMap parseLine).length < 2 then none
        else some ((ls.filterMap parseLine).map Prod.fst,
          ((ls.filterMap parseLine).map Prod.snd).flatten) := by
    intro ls
    have hpv := flatten_blocks_length (ls.filterMap parseLine) (hlen6 ls)
    simp only [parse_vectors]
    by_cases hc : (ls.filterMap parseLine).length < 2
    · rw [if_pos (by rw [List.length_map]; exact Or.inl hc), if_pos hc]
    · rw [if_neg ?hcond, if_neg hc]
      case hcond =>
        push_neg
        rw [List.length_map, hpv]
        exact ⟨by omega, rfl⟩
  refine ⟨?_, ?_, ?_, ?_⟩
  · intro l h
    rcases h with h | h | ⟨h8, hn⟩ | ⟨h7, hn⟩
    · simp [parseLine, h]
    · have h8 : ¬ 8 ≤ l.fields.length := by omega
      have h7 : ¬ 7 ≤ l.fields.length := by omega
      simp [parseLine, h8, h7]
    · cases hsd : l.startsDigit with
      | false => simp [parseLine, hsd]
      | true =>
        simp only [parseLine, hsd, Bool.not_true, Bool.false_eq_true, if_false, if_pos h8]
        rcases hn with hn | hn
        · rw [hn]
        · rw [seqQ_none _ hn]
          rcases floatAt l 0 with _ | q <;> rfl
    · cases hsd : l.startsDigit with
      | false => simp [parseLine, hsd]
      | true =>
        have h8 : ¬ 8 ≤ l.fields.length := by omega
        simp only [parseLine, hsd, Bool.not_true, Bool.false_eq_true, if_false,
          if_neg h8, if_pos (by omega : 7 ≤ l.fields.length)]
        rcases hn with hn | hn
        · rw [hn]
        · rw [seqQ_none _ hn]
          rcases floatAt l 0 with _ | q <;> rfl
  · intro ls1 ls2 l h
    simp only [parse_vectors, List.filterMap_append, List.filterMap_cons, h]
  · intro ls
    rw [hshape ls]
    by_cases hc : (ls.filterMap parseLine).length < 2
    · simp [hc]
    · simp [hc]
  · intro ls t pv h
    rw [hshape ls] at h
    by_cases hc : (ls.filterMap parseLine).length < 2
    · rw [if_pos hc] at h
      exact absurd h (by simp)
    · rw [if_neg hc] at h
      have hpv := flatten_blocks_length (ls.filterMap parseLine) (hlen6 ls)
      injection h with h
      injection h with h1 h2
      subst h1
      subst h2
      rw [List.length_map, hpv]
      exact ⟨by omega, rfl⟩

/-- A well-formed 8-field CSV line: epoch, calendar text (unparseable as a
float), then six vector components. -/
def goodLine (jd : ℚ) : RawLine :=
  ⟨true, [some jd, none, some 1, some 2, some 3, some 4, some 5, some 6]⟩

/-- A header-like line: does not start with a digit. -/
def junkLine : RawLine := ⟨false, [some 9]⟩

/-- Witness for C7: all four conjuncts at concrete lines and blocks. -/
theorem parse_vectors_skip_and_postcondition_w :
    parseLine junkLine = none
    ∧ parse_vectors ([goodLine 100] ++ junkLine :: [goodLine 101])
        = parse_vectors ([goodLine 100] ++ [goodLine 101])
    ∧ (parse_vectors [junkLine] = none ↔ ([junkLine].filterMap parseLine).length < 2)
    ∧ (2 ≤ ([(100 : ℚ), 101] : List ℚ).length
        ∧ ([1, 2, 3, 4, 5, 6, 1, 2, 3, 4, 5, 6] : List ℚ).length
            = 6 * ([(100 : ℚ), 101] : List ℚ).length) :=
  ⟨parse_vectors_skip_and_postcondition.1 junkLine (Or.inl rfl),
   parse_vectors_skip_and_postcondition.2.1 [goodLine 100] [goodLine 101] junkLine
     (parse_vectors_skip_and_postcondition.1 junkLine (Or.inl rfl)),
   parse_vectors_skip_and_postcondition.2.2.1 [junkLine],
   parse_vectors_skip_and_postcondition.2.2.2 [goodLine 100, goodLine 101]
     [100, 101] [1, 2, 3, 4, 5, 6, 1, 2, 3, 4, 5, 6] (by decide)⟩

end StarEphem

namespace StarEphem

/-! ### C8: the multi-body time-grid check in `main` -/

/-- The per-body comparison of `main`'s planet loop:
`if len(t) != len(t_ref): raise` then
`for a, b in zip(t, t_ref): if abs(a - b) > 1e-10: raise`
(`generate_ephemeris.py` fuses the two into one `or`, with the same
acceptance). -/
def gridMatches (tref t : List ℚ) : Bool :=
  t.length == tref.length
    && (t.zip tref).all (fun p => decide (pyabs (p.1 - p.2) ≤ tol))

/-- The whole validation: the first body's epochs are the reference
(`t_ref`), every later body must match it. -/
def timeGridOk : List (List ℚ) → Bool
  | [] => true
  | tref :: rest => rest.all (gridMatches tref)

/-- The multi-object frame is only assembled from the validated series; a
raise in the loop aborts `main` before `planets_json` is built. -/
def assembleFrame (bodies : List (List ℚ × List ℚ)) :
    Option (List ℚ × List (List ℚ)) :=
  if timeGridOk (bodies.map Prod.fst)
  then some (((bodies.map Prod.fst).headD []), bodies.map Prod.snd)
  else none

theorem mem_zip_getElem : ∀ (l1 l2 : List ℚ) (p : ℚ × ℚ), p ∈ l1.zip l2 →
    ∃ i, l1.get? i = some p.1 ∧ l2.get? i = some p.2 := by
  intro l1
  induction l1 with
  | nil => intro l2 p h; exact absurd h (by simp)
  | cons a l1 ih =>
    intro l2 p h
    rcases l2 with _ | ⟨b, l2⟩
    · exact absurd h (by simp)
    · rw [List.zip_cons_cons] at h
      rcases List.mem_cons.mp h with h | h
      · exact ⟨0, by simp [h]⟩
      · obtain ⟨i, h1, h2⟩ := ih l2 p h
        exact ⟨i + 1, by simpa using h1, by simpa using h2⟩

/-- C8: the validator accepts any family of equal-length series whose
pairwise epoch differences stay below the tolerance at every index (first
conjunct); it rejects a family where one series has a different length
(second conjunct) and one where an epoch differs from the reference by
`1.0` (third conjunct); and on any rejection the multi-object frame is not
assembled (fourth conjunct). -/
theorem time_grid_validation :
    (∀ (tss : List (List ℚ)) (L : ℕ),
        (∀ t ∈ tss, t.length = L) →
        (∀ t1 ∈ tss, ∀ t2 ∈ tss, ∀ (i : ℕ) (a b : ℚ),
          t1.get? i = some a → t2.get? i = some b → pyabs (a - b) < tol) →
        timeGridOk tss = true)
    ∧ timeGridOk [[0, 1], [0, 1, 2]] = false
    ∧ timeGridOk [[0, 1], [0, 2]] = false
    ∧ (∀ bodies : List (List ℚ × List ℚ),
        timeGridOk (bodies.map Prod.fst) = false → assembleFrame bodies = none) := by
  refine ⟨?_, ?_, ?_, ?_⟩
  · intro tss L hlen hclose
    rcases tss with _ | ⟨tref, rest⟩
    · rfl
    · rw [timeGridOk, List.all_eq_true]
      intro t ht
      have htmem : t ∈ tref :: rest := List.mem_cons_of_mem _ ht
      have hrefmem : tref ∈ tref :: rest := List.mem_cons_self _ _
      rw [gridMatches, Bool.and_eq_true, beq_iff_eq, List.all_eq_true]
      refine ⟨by rw [hlen t htmem, hlen tref hrefmem], ?_⟩
      intro p hp
      obtain ⟨i, h1, h2⟩ := mem_zip_getElem t tref p hp
      exact decide_eq_true (le_of_lt (hclose t htmem tref hrefmem i p.1 p.2 h1 h2))
  · norm_num [timeGridOk, gridMatches]
  · norm_num [timeGridOk, gridMatches, pyabs, tol]
  · intro bodies h
    rw [assembleFrame, h]
    rfl

/-- Witness for C8: the accepting conjunct at two identical 2-sample grids,
and the rejecting conjunct at a concrete mismatched family. -/
theorem time_grid_validation_w :
    timeGridOk [[0, 1], [0, 1]] = true
    ∧ assembleFrame [([0, 1], [5]), ([0, 2], [6])] = none := by
  constructor
  · refine time_grid_validation.1 [[0, 1], [0, 1]] 2 ?_ ?_
    · intro t ht
      rcases List.mem_cons.mp ht with h | h
      · rw [h]
        rfl
      · rw [List.mem_singleton.mp h]
        rfl
    · intro t1 h1 t2 h2 i a b ha hb
      have hsame : ∀ t ∈ [[(0 : ℚ), 1], [0, 1]], t = [0, 1] := by
        intro t ht
        rcases List.mem_cons.mp ht with h | h
        · exact h
        · exact List.mem_singleton.mp h
      rw [hsame t1 h1] at ha
      rw [hsame t2 h2] at hb
      rcases i with _ | _ | i
      · simp at ha hb
        subst ha
        subst hb
        norm_num [pyabs, tol]
      · simp at ha hb
        subst ha
        subst hb
        norm_num [pyabs, tol]
      · simp at ha
  · refine time_grid_validation.2.2.2 [([0, 1], [5]), ([0, 2], [6])] ?_
    norm_num [timeGridOk, gridMatches, pyabs, tol]

end StarEphem

namespace StarEphem

/-! ### C10: `parse_earliest_from_error` and the `MONTH` table -/

/-- Match groups of `EARLIEST_RE`, the pattern
`prior to A\.D\. (\d{4})-([A-Z]{3})-(\d{2}) (\d{2}):(\d{2}):(\d{2})(?:\.(\d+))? UT`
(ASCII digits and capitals; the numeric groups carry their parsed values). -/
structure EarliestGroups where
  yyyy : ℕ
  mon : List Char
  dd : ℕ
  hh : ℕ
  mi : ℕ
  ss : ℕ
  frac : Option (List Char)
deriving DecidableEq

/-- Consume a literal prefix. -/
def eatLit : List Char → List Char → Option (List Char)
  | [], s => some s
  | c :: cs, d :: s => if c = d then eatLit cs s else none
  | _ :: _, [] => none

/-- Consume exactly `k` digits, accumulating their decimal value. -/
def readDigits : ℕ → ℕ → List Char → Option (ℕ × List Char)
  | 0, acc, s => some (acc, s)
  | k + 1, acc, c :: s =>
      if c.isDigit then readDigits k (acc * 10 + (c.toNat - 48)) s else none
  | _ + 1, _, [] => none

/-- Consume exactly three ASCII capitals (`[A-Z]{3}`). -/
def readUpper3 : List Char → Option (List Char × List Char)
  | a :: b :: c :: s =>
      if a.isUpper && b.isUpper && c.isUpper then some ([a, b, c], s) else none
  | _ => none

/-- `\d+` with maximal munch (at least one digit). -/
def readDigits1 (s : List Char) : Option (List Char × List Char) :=
  let ds := s.takeWhile Char.isDigit
  if ds.isEmpty then none else some (ds, s.drop ds.length)

/-- `EARLIEST_RE` anchored at the head of `s`.  The optional fraction
`(?:\.(\d+))?` is greedy; since `" UT"` begins with a space — neither a dot
nor a digit — maximal munch plus one fallback is exactly the regex engine's
backtracking here. -/
def matchEarliestAt (s : List Char) : Option EarliestGroups := do
  let s ← eatLit "prior to A.D. ".toList s
  let (yyyy, s) ← readDigits 4 0 s
  let s ← eatLit ['-'] s
  let (mon, s) ← readUpper3 s
  let s ← eatLit ['-'] s
  let (dd, s) ← readDigits 2 0 s
  let s ← eatLit [' '] s
  let (hh, s) ← readDigits 2 0 s
  let s ← eatLit [':'] s
  let (mi, s) ← readDigits 2 0 s
  let s ← eatLit [':'] s
  let (ss, s) ← readDigits 2 0 s
  match s with
  | '.' :: rest => do
      let (ds, s2) ← readDigits1 rest
      let _ ← eatLit " UT".toList s2
      pure ⟨yyyy, mon, dd, hh, mi, ss, some ds⟩
  | _ => do
      let _ ← eatLit " UT".toList s
      pure ⟨yyyy, mon, dd, hh, mi, ss, none⟩

/-- `EARLIEST_RE.search(err)`: the leftmost position where the pattern
matches. -/
def searchEarliest : List Char → Option EarliestGroups
  | [] => none
  | c :: rest =>
    match matchEarliestAt (c :: rest) with
    | some g => some g
    | none => searchEarliest rest

/-- The `MONTH` dict: the twelve known three-letter abbreviations. -/
def MONTH (m : List Char) : Option ℕ :=
  if m = "JAN".toList then some 1
  else if m = "FEB".toList then some 2
  else if m = "MAR".toList then some 3
  else if m = "APR".toList then some 4
  else if m = "MAY".toList then some 5
  else if m = "JUN".toList then some 6
  else if m = "JUL".toList then some 7
  else if m = "AUG".toList then some 8
  else if m = "SEP".toList then some 9
  else if m = "OCT".toList then some 10
  else if m = "NOV".toList then some 11
  else if m = "DEC".toList then some 12
  else none

/-- A `datetime.datetime` restricted to whole seconds: the regex yields
whole seconds and the code zeroes microseconds before adding one second. -/
structure PyDateTime where
  year : ℕ
  month : ℕ
  day : ℕ
  hour : ℕ
  minute : ℕ
  second : ℕ
deriving DecidableEq

def isLeap (y : ℕ) : Bool := y % 4 == 0 && (y % 100 != 0 || y % 400 == 0)

def daysInMonth (y m : ℕ) : ℕ :=
  if m = 2 then (if isLeap y then 29 else 28)
  else if m = 4 ∨ m = 6 ∨ m = 9 ∨ m = 11 then 30
  else 31

/-- `datetime.datetime(y, mo, d, h, mi, s)`: `none` models the `ValueError`
raised on out-of-range fields. -/
def mkDatetime (y mo d h mi s : ℕ) : Option PyDateTime :=
  if 1 ≤ y ∧ y ≤ 9999 ∧ 1 ≤ mo ∧ mo ≤ 12 ∧ 1 ≤ d ∧ d ≤ daysInMonth y mo
      ∧ h ≤ 23 ∧ mi ≤ 59 ∧ s ≤ 59
  then some ⟨y, mo, d, h, mi, s⟩ else none

/-- `dt + timedelta(seconds=1)` on a whole-second datetime. -/
def plusOneSecond (dt : PyDateTime) : PyDateTime :=
  if dt.second < 59 then { dt with second := dt.second + 1 }
  else if dt.minute < 59 then { dt with second := 0, minute := dt.minute + 1 }
  else if dt.hour < 23 then { dt with second := 0, minute := 0, hour := dt.hour + 1 }
  else if dt.day < daysInMonth dt.year dt.month then
    { dt with second := 0, minute := 0, hour := 0, day := dt.day + 1 }
  else if dt.month < 12 then
    { dt with second := 0, minute := 0, hour := 0, day := 1, month := dt.month + 1 }
  else ⟨dt.year + 1, 1, 1, 0, 0, 0⟩

/-- Outcome of `parse_earliest_from_error`: `noMatch` models `return None`,
`ok dt` a returned datetime, `valueError` an uncaught exception raised by
`datetime(...)`. -/
inductive ParseEarliestOutcome where
  | noMatch
  | ok (dt : PyDateTime)
  | valueError
deriving DecidableEq

/-- `parse_earliest_from_error(err)`: search the message; on a match, build
`datetime(int(yyyy), MONTH.get(mon, 1), int(dd), int(hh), int(mm), int(ss))`
and add one second. -/
def parse_earliest_from_error (err : List Char) : ParseEarliestOutcome :=
  match searchEarliest err with
  | none => .noMatch
  | some g =>
    match mkDatetime g.yyyy ((MONTH g.mon).getD 1) g.dd g.hh g.mi g.ss with
    | none => .valueError
    | some dt => .ok (plusOneSecond dt)

end StarEphem

namespace StarEphem

/-- The upstream message of C10's counterexample: it matches `EARLIEST_RE`
(`XYZ` is three capitals, `40` two digits) but names no real month — and no
real day either. -/
def c10BadErr : List Char := "prior to A.D. 2021-XYZ-40 00:00:00 UT".toList

/-- Counterexample to C10 as stated: this message matches the pattern with
an unknown month abbreviation, yet `parse_earliest_from_error` neither
returns a January datetime nor `None` — `datetime(2021, 1, 40, …)` raises
`ValueError`, because the regex's `\d{2}` admits day fields that are
invalid for the substituted month. -/
theorem parse_earliest_unknown_month_invalid_day :
    searchEarliest c10BadErr = some ⟨2021, "XYZ".toList, 40, 0, 0, 0, none⟩
    ∧ MONTH "XYZ".toList = none
    ∧ parse_earliest_from_error c10BadErr = .valueError := by
  refine ⟨by decide, by decide, by decide⟩

/-- C10 amended: for every message matching the pattern whose month
abbreviation is unknown and whose numeric fields lie in `datetime`'s valid
ranges for January, the parser does not return `None` and does not raise:
it silently substitutes month 1 (January) into the constructed datetime,
so the window shift is computed from a date in the wrong month instead of
the error being treated as a generic fatal upstream error. -/
theorem parse_earliest_unknown_month_january
    (err : List Char) (g : EarliestGroups)
    (hs : searchEarliest err = some g) (hm : MONTH g.mon = none)
    (hy1 : 1 ≤ g.yyyy) (hy2 : g.yyyy ≤ 9999) (hd1 : 1 ≤ g.dd) (hd2 : g.dd ≤ 31)
    (hhh : g.hh ≤ 23) (hmi : g.mi ≤ 59) (hss : g.ss ≤ 59) :
    parse_earliest_from_error err
      = .ok (plusOneSecond ⟨g.yyyy, 1, g.dd, g.hh, g.mi, g.ss⟩) := by
  unfold parse_earliest_from_error
  rw [hs]
  dsimp only
  have hmk : mkDatetime g.yyyy ((MONTH g.mon).getD 1) g.dd g.hh g.mi g.ss
      = some ⟨g.yyyy, 1, g.dd, g.hh, g.mi, g.ss⟩ := by
    rw [hm, Option.getD_none]
    unfold mkDatetime
    rw [if_pos]
    refine ⟨hy1, hy2, le_refl 1, by norm_num, hd1, ?_, hhh, hmi, hss⟩
    have h31 : daysInMonth g.yyyy 1 = 31 := by norm_num [daysInMonth]
    omega
  rw [hmk]

/-- Witness for the amended C10 at a concrete message with a valid day. -/
theorem parse_earliest_unknown_month_january_w :
    parse_earliest_from_error "prior to A.D. 2021-XYZ-15 12:30:45 UT".toList
      = .ok (plusOneSecond ⟨2021, 1, 15, 12, 30, 45⟩) :=
  parse_earliest_unknown_month_january "prior to A.D. 2021-XYZ-15 12:30:45 UT".toList
    ⟨2021, "XYZ".toList, 15, 12, 30, 45, none⟩
    (by decide) (by decide) (by decide) (by decide) (by decide) (by decide)
    (by decide) (by decide) (by decide)

end StarEphem
